import Mathlib

/-!
Verification development for the Termux cue-splitting tool.

The cue parser (`core/parser.py`), the album processor (`core/processor.py`)
and the batch orchestrator's concurrency selection (`core/cli.py`) are embedded
shallowly.  Python dictionaries become records; Python floats become exact
rationals; the mutable track dictionaries (which can be aliased, because a
`TRACK` line with a non-numeric argument appends the current dictionary without
replacing it) are modelled by a heap of records addressed by allocation index;
an exception escaping `parse` is modelled by an `Option` result.  External
collaborators (ffmpeg invocations, the duration probe, the filesystem) are
oracles passed in as parameters, and their invocations are recorded in an
effect trace.
-/

namespace TermuxCue

/-! ### String helpers mirroring the Python string operations -/

/-- Word characters as matched by the regex class w (ASCII fragment). -/
def wordChar (c : Char) : Bool := c.isAlphanum || c == '_'

/-- Python str.strip, used on every input line. -/
def pyStrip (s : String) : String :=
  String.mk (((s.data.dropWhile Char.isWhitespace).reverse.dropWhile
    Char.isWhitespace).reverse)

/-- Split a character list at every character satisfying p, keeping empties
(the behaviour of Python str.split with an explicit separator). -/
def splitOnPred (p : Char → Bool) (cs : List Char) : List (List Char) :=
  cs.foldr (fun c acc =>
    if p c then [] :: acc
    else match acc with
      | g :: gs => (c :: g) :: gs
      | [] => [[c]]) [[]]

/-- Python str.split() with no arguments: split on whitespace runs, no empties. -/
def pySplitWs (s : String) : List String :=
  ((splitOnPred Char.isWhitespace s.data).filter (fun g => !g.isEmpty)).map String.mk

/-- Python t.split with a colon separator, as used by the timestamp parser. -/
def splitColon (s : String) : List String :=
  (splitOnPred (fun c => c == ':') s.data).map String.mk

/-- Python str.upper (ASCII fragment). -/
def pyUpper (s : String) : String := String.mk (s.data.map Char.toUpper)

/-- Python str.lower (ASCII fragment). -/
def pyLower (s : String) : String := String.mk (s.data.map Char.toLower)

/-- Python str.startswith. -/
def strStarts (s pre : String) : Bool := pre.data.isPrefixOf s.data

/-- Python substring containment, that is the `in` operator on strings. -/
def strContains (s sub : String) : Bool :=
  (List.range (s.data.length + 1)).any (fun i => sub.data.isPrefixOf (s.data.drop i))

/-- Python str.strip with a double-quote argument, as used on TITLE/PERFORMER. -/
def stripQuotes (s : String) : String :=
  String.mk (((s.data.dropWhile (fun c => c == '"')).reverse.dropWhile
    (fun c => c == '"')).reverse)

/-- The regex search for a quoted group, pattern quote [^quote]+ quote: earliest
match wins and the quoted body must be nonempty. -/
def findQuoted : List Char → Option String
  | [] => none
  | '"' :: rest =>
    let body := rest.takeWhile (fun c => c != '"')
    if body.length < rest.length then
      if body.isEmpty then findQuoted rest else some (String.mk body)
    else none
  | _ :: rest => findQuoted rest

/-- Numeric value of a digit run. -/
def digitsVal (ds : List Char) : Nat := ds.foldl (fun a c => a * 10 + (c.toNat - 48)) 0

/-- The regex match for leading digits on a TRACK argument, with int conversion. -/
def leadingNum (s : String) : Option Nat :=
  let ds := s.data.takeWhile Char.isDigit
  if ds.isEmpty then none else some (digitsVal ds)

/-- Python int() on a string: optional sign then decimal digits; none models a
ValueError. -/
def pyInt (s : String) : Option Int :=
  match s.data with
  | [] => none
  | '-' :: ds => if !ds.isEmpty && ds.all Char.isDigit then some (-(digitsVal ds : Int)) else none
  | '+' :: ds => if !ds.isEmpty && ds.all Char.isDigit then some ((digitsVal ds : Int)) else none
  | ds => if ds.all Char.isDigit then some ((digitsVal ds : Int)) else none

/-- Python "\n".join and friends. -/
def joinWith (sep : String) : List String → String
  | [] => ""
  | x :: xs => xs.foldl (fun a b => a ++ sep ++ b) x

/-! ### The cue parser, from CueParser in core/parser.py -/

/-- CueParser._parse_time: split the timestamp at colons into minutes, seconds
and 1/75-second frames; any ValueError makes it return zero.  Times are
modelled as exact rationals, the sum m * 60 + s + f / 75 being built as the
single exact fraction (m * 4500 + s * 75 + f) / 75; the parse_time_spec
theorem below proves it equal to the source's formula. -/
def parse_time (t : String) : ℚ :=
  match splitColon t with
  | [a, b, c] =>
    match pyInt a, pyInt b, pyInt c with
    | some m, some s, some f => mkRat (m * 4500 + s * 75 + f) 75
    | _, _, _ => 0
  | _ => 0

/-- The album dictionary self.album_data.  A missing key is none; REPLAYGAIN
REM entries live in an insertion-ordered association list. -/
structure AlbumRec where
  title : Option String := none
  performer : Option String := none
  file : Option String := none
  rem : List (String × String) := []
deriving DecidableEq, Repr

def emptyAlbum : AlbumRec := {}

/-- One track dictionary.  startTime none means the start key is absent;
endTime none means the end key is absent, endTime (some none) is Python None. -/
structure TrackRec where
  number : Nat
  performer : Option String
  title : String
  startTime : Option ℚ := none
  endTime : Option (Option ℚ) := none
  rem : List (String × String) := []
deriving DecidableEq, Repr, Inhabited

/-- Dictionary assignment on an insertion-ordered association list. -/
def setAssoc (l : List (String × String)) (k v : String) : List (String × String) :=
  if l.any (fun p => p.1 = k) then l.map (fun p => if p.1 = k then (k, v) else p)
  else l ++ [(k, v)]

/-- The dictionary built by the TRACK branch: number, performer inherited from
the album, and a synthesized default title. -/
def mkTrack (n : Nat) (albumPerformer : Option String) : TrackRec :=
  { number := n, performer := albumPerformer, title := "音轨 " ++ toString n }

/-- The line-shape regex: a leading word-character run is the command
(uppercased), the remainder after optional whitespace is the argument string.
Blank lines and lines not starting with a word character yield none. -/
def cmdOf (line : String) : Option (String × String) :=
  let l := pyStrip line
  match l.data with
  | [] => none
  | c :: _ =>
    if wordChar c then
      some (pyUpper (String.mk (l.data.takeWhile wordChar)),
            String.mk ((l.data.dropWhile wordChar).dropWhile Char.isWhitespace))
    else none

/-- Parser state: the album record, the heap of track dictionaries indexed by
allocation order, the list self.tracks_data as heap references (references,
not values, because appended dictionaries stay mutable through
current_track_info), and the reference held by current_track_info. -/
structure PState where
  album : AlbumRec
  heap : List TrackRec
  refs : List Nat
  cur : Option Nat
deriving DecidableEq

def initState : PState := { album := emptyAlbum, heap := [], refs := [], cur := none }

/-- The reference list contributed by an optional current track. -/
def optList (o : Option Nat) : List Nat :=
  match o with
  | none => []
  | some r => [r]

/-- The reference list contributed by current_track_info. -/
def curList (s : PState) : List Nat := optList s.cur

/-- Album-record updates for commands handled while no track is being built. -/
def albumApply (a : AlbumRec) (cmd args : String) : AlbumRec :=
  if cmd = "TITLE" then { a with title := some (stripQuotes args) }
  else if cmd = "PERFORMER" then { a with performer := some (stripQuotes args) }
  else if cmd = "REM" then
    match remSplit args with
    | [k0, v] =>
      if strStarts (pyUpper k0) ("REPLAYGAIN_") && strContains (pyUpper k0) ("ALBUM") then
        { a with rem := setAssoc a.rem (pyLower (pyUpper k0)) v }
      else a
    | _ => a
  else a
where
  /-- Python re.split on whitespace with at most one split. -/
  remSplit (s : String) : List String :=
    let pre := s.data.takeWhile (fun c => !c.isWhitespace)
    let post := s.data.dropWhile (fun c => !c.isWhitespace)
    if post.isEmpty then [s]
    else [String.mk pre, String.mk (post.dropWhile Char.isWhitespace)]

/-- Track-record updates for commands handled while a track is being built. -/
def trackApply (t : TrackRec) (cmd args : String) : TrackRec :=
  if cmd = "TITLE" then { t with title := stripQuotes args }
  else if cmd = "PERFORMER" then { t with performer := some (stripQuotes args) }
  else if cmd = "INDEX" then
    if strStarts args ("01") then
      match pySplitWs args with
      | _ :: w :: _ => { t with startTime := some (parse_time w) }
      | _ => t
    else t
  else if cmd = "REM" then
    match albumApply.remSplit args with
    | [k0, v] =>
      if strStarts (pyUpper k0) ("REPLAYGAIN_") && strContains (pyUpper k0) ("TRACK") then
        { t with rem := setAssoc t.rem (pyLower (pyUpper k0)) v }
      else t
    | _ => t
  else t

/-- One recognized command applied to the parser state, following the branch
order of CueParser.parse.  A TRACK line first appends current_track_info (if
any) to tracks_data, then allocates a fresh dictionary only when the argument
begins with digits; otherwise current_track_info keeps pointing at the
already-appended dictionary. -/
def applyCmd (s : PState) (cmd args : String) : PState :=
  if cmd = "TRACK" then
    let s1 : PState := { s with refs := s.refs ++ curList s }
    match leadingNum args with
    | some n => { s1 with heap := s1.heap ++ [mkTrack n s1.album.performer],
                          cur := some s1.heap.length }
    | none => s1
  else if cmd = "FILE" then
    match s.cur with
    | none =>
      match findQuoted args.data with
      | some q => { s with album := { s.album with file := some q } }
      | none =>
        match pySplitWs args with
        | [] => s
        | tok :: _ => { s with album := { s.album with file := some tok } }
    | some _ => s
  else
    match s.cur with
    | none => { s with album := albumApply s.album cmd args }
    | some r => { s with heap := s.heap.set r (trackApply (s.heap.getD r default) cmd args) }

/-- One input line applied to the parser state. -/
def step (s : PState) (line : String) : PState :=
  match cmdOf line with
  | none => s
  | some (cmd, args) => applyCmd s cmd args

def setEnd (t : TrackRec) (e : Option ℚ) : TrackRec := { t with endTime := some e }

/-- The end-time derivation loop at the end of parse: every entry but the last
gets the following entry's start time (a missing start key raises, modelled by
none), and the last entry gets Python None.  Assignments go through the heap so
aliased entries observe each other's updates, exactly as the Python
dictionaries do. -/
def endGo : List TrackRec → List Nat → Option (List TrackRec)
  | heap, [] => some heap
  | heap, [r] => some (heap.set r (setEnd (heap.getD r default) none))
  | heap, r :: r2 :: rest =>
    match (heap.getD r2 default).startTime with
    | none => none
    | some sNext => endGo (heap.set r (setEnd (heap.getD r default) (some sNext))) (r2 :: rest)

/-- CueParser.parse: fold the state machine over the lines, append the final
in-progress track, return early with an empty track list when nothing was
built, then derive end times.  none models an exception escaping parse. -/
def parse (lines : List String) : Option (AlbumRec × List TrackRec) :=
  if lines.isEmpty then some (emptyAlbum, []) else
  let s0 := lines.foldl step initState
  let s1 : PState := { s0 with refs := s0.refs ++ curList s0 }
  if s1.refs.isEmpty then some (s1.album, []) else
  match endGo s1.heap s1.refs with
  | none => none
  | some h => some (s1.album, s1.refs.map (fun r => h.getD r default))

/-! ### Derived, claim-facing views of the parser -/

/-- Whether a line carries the TRACK command. -/
def isTrackCmd (l : String) : Bool :=
  match cmdOf l with
  | some (c, _) => c == "TRACK"
  | none => false

/-- The track number announced by a line, when it is a TRACK directive whose
argument begins with digits. -/
def trackNumOf (l : String) : Option Nat :=
  match cmdOf l with
  | some (c, a) => if c == "TRACK" then leadingNum a else none
  | none => none

/-- Hypothesis used by several claims: every TRACK directive carries a valid
(digit-initial) number, so no track dictionary is ever appended twice. -/
abbrev validTracksOnly (lines : List String) : Prop :=
  ∀ l ∈ lines, isTrackCmd l = true → (trackNumOf l).isSome = true

/-- The track numbers of a cue text in order of first appearance. -/
def trackNums (lines : List String) : List Nat := lines.filterMap trackNumOf

/-- Whether an INDEX argument actually sets a start time: it starts with 01
and has at least two whitespace tokens. -/
def isEffIndexArgs (a : String) : Bool :=
  strStarts a ("01") &&
    (match pySplitWs a with
     | _ :: _ :: _ => true
     | _ => false)

/-- Whether a line is an INDEX directive that actually sets a start time. -/
def isEffIndex (l : String) : Bool :=
  match cmdOf l with
  | some (c, a) => c == "INDEX" && isEffIndexArgs a
  | none => false

/-- Per-track-section INDEX bookkeeping: one flag per started track, set once
an effective INDEX 01 line appears in its section. -/
def flagStep (flags : List Bool) (l : String) : List Bool :=
  if isTrackCmd l && (trackNumOf l).isSome then flags ++ [false]
  else if isEffIndex l then
    (if flags.isEmpty then flags else flags.dropLast ++ [true])
  else flags

/-- Section flags of a whole cue text. -/
def sectionFlags (lines : List String) : List Bool := lines.foldl flagStep []

/-- The claimed post-parse timeline shape: every non-last record's end time
equals the following record's start time, and the last record's end time is
Python None. -/
def endTimesChained (ts : List TrackRec) : Prop :=
  (∀ i, i + 1 < ts.length →
    (ts.getD i default).endTime = some ((ts.getD (i + 1) default).startTime)) ∧
  (ts ≠ [] → (ts.getD (ts.length - 1) default).endTime = some none)

/-- Specification-side restatement of the end-time loop on a plain record list
(meaningful when no aliasing occurred, so the reference list is 0,1,2,...). -/
def chainEnds : List TrackRec → Option (List TrackRec)
  | [] => some []
  | [t] => some [setEnd t none]
  | t1 :: t2 :: rest =>
    match t2.startTime with
    | none => none
    | some sNext => (chainEnds (t2 :: rest)).map (fun l => setEnd t1 (some sNext) :: l)

/-! ### The album processor, from AudioProcessor.process_album in core/processor.py -/

/-- Externally visible side effects of process_album, in program order. -/
inductive Effect where
  | mkdirOut : String → Effect
  | probeDur : String → Effect
  | splitTrack : Nat → Effect
deriving DecidableEq, Repr

/-- The value returned by process_album together with its effect trace and the
worker-pool size it opened (none when tracks are processed sequentially). -/
structure ProcOutcome where
  ok : Bool
  diag : Option String
  trace : List Effect
  pool : Option Nat
deriving DecidableEq, Repr

/-- The re.sub replacing filesystem-unsafe characters by underscores. -/
def sanitize (s : String) : String :=
  String.mk (s.data.map (fun c =>
    if c == '\\' || c == '/' || c == '*' || c == '?' || c == ':' ||
       c == '"' || c == '<' || c == '>' || c == '|' then '_' else c))

/-- The duration-probe fixup: on a successful probe the last track's end time
is overwritten with the probed stream duration. -/
def applyProbe (probe : Option ℚ) (tracks : List TrackRec) : List TrackRec :=
  match probe with
  | none => tracks
  | some d => tracks.set (tracks.length - 1)
      (setEnd (tracks.getD (tracks.length - 1) default) (some d))

/-- AudioProcessor.process_album.  cpu is multiprocessing.cpu_count(); splitFn
is the external per-track split job (ffmpeg plus tag writing), returning a
success flag and an optional diagnostic; probe is the parsed output of the
duration probe.  The output directory is created first; then the album's file
key is read (a missing key raises, modelled by none); only then is the empty
track list rejected; then the duration probe runs and all track jobs are
dispatched, through a bounded pool of size min(cpu, trackCount, 4) exactly when
track concurrency is requested and more than one track exists. -/
def process_album (cpu : Nat) (outputDirOpt : Option String)
    (splitFn : TrackRec → Bool × Option String) (probe : Option ℚ)
    (album : AlbumRec) (tracks : List TrackRec) (sourceDir : String)
    (useTrackConcurrency : Bool) : Option ProcOutcome :=
  let albumTitle := sanitize ((album.title).getD ("Untitled Album"))
  let outputPath := outputDirOpt.getD (sourceDir ++ "/" ++ albumTitle)
  match album.file with
  | none => none
  | some f =>
    if tracks.isEmpty then
      some { ok := false, diag := some ("错误：音轨列表为空，无法处理。"),
             trace := [Effect.mkdirOut outputPath], pool := none }
    else
      let inputFile := sourceDir ++ "/" ++ f
      let tracks2 := applyProbe probe tracks
      let results := tracks2.map splitFn
      let pool := if useTrackConcurrency && tracks.length > 1
        then some (min cpu (min tracks.length 4)) else none
      let failed := (results.filter (fun r => !r.1)).map (fun r => (r.2).getD (""))
      let tr := Effect.mkdirOut outputPath :: Effect.probeDur inputFile ::
        tracks2.map (fun t => Effect.splitTrack t.number)
      if failed.isEmpty then some { ok := true, diag := none, trace := tr, pool := pool }
      else some { ok := false, diag := some (joinWith ("\n") failed), trace := tr, pool := pool }

/-- The per-track split results the processor aggregates, as a function of its
oracle inputs. -/
def splitResults (splitFn : TrackRec → Bool × Option String) (probe : Option ℚ)
    (tracks : List TrackRec) : List (Bool × Option String) :=
  (applyProbe probe tracks).map splitFn

/-! ### The batch orchestrator's concurrency selection, from Cli.run in core/cli.py -/

/-- The per-task worker arguments built by Cli.run: with more than one album
task each worker gets track concurrency disabled, with exactly one task the
single album gets track concurrency enabled. -/
def cliWorkerFlags (tasks : List String) : List (String × Bool) :=
  if tasks.length > 1 then tasks.map (fun t => (t, false))
  else tasks.map (fun t => (t, true))

/-- The album-level pool Cli.run opens, when more than one task exists. -/
def cliAlbumPool (cpu : Nat) (tasks : List String) : Option Nat :=
  if tasks.length > 1 then some (min cpu (min tasks.length 4)) else none

/-! ### Views of the parser state used by the invariants -/

/-- Structural invariant of reachable parser states on inputs whose TRACK
directives all carry valid numbers: the reference list (with the current
track appended) is exactly the allocation order, and nothing is referenced
before the first track allocation. -/
def StInv (s : PState) : Prop :=
  s.refs ++ curList s = List.range s.heap.length ∧ (s.cur = none → s.refs = [])

/-- The track numbers visible through the reference list. -/
def stNums (s : PState) : List Nat :=
  (s.refs ++ curList s).map (fun r => (s.heap.getD r default).number)

/-- Which referenced tracks already carry a start time. -/
def stFlags (s : PState) : List Bool :=
  (s.refs ++ curList s).map (fun r => ((s.heap.getD r default).startTime).isSome)

/-! ### List access lemmas -/

theorem getD_append_length {α} [Inhabited α] (l : List α) (x : α) :
    (l ++ [x]).getD l.length default = x := by
  rw [List.getD_append_right _ _ _ _ (Nat.le_refl _)]
  simp

theorem getD_set_self {α} [Inhabited α] (l : List α) (i : Nat) (v : α) (h : i < l.length) :
    (l.set i v).getD i default = v := by
  rw [List.getD_eq_getElem _ _ (by simpa using h)]
  simp

theorem getD_set_ne {α} [Inhabited α] (l : List α) {i j : Nat} (v : α) (h : i ≠ j) :
    (l.set i v).getD j default = l.getD j default := by
  by_cases hj : j < l.length
  · rw [List.getD_eq_getElem _ _ (by simpa using hj), List.getD_eq_getElem _ _ hj]
    exact List.getElem_set_ne h _
  · rw [List.getD_eq_default _ _ (by simpa using Nat.le_of_not_lt hj),
        List.getD_eq_default _ _ (Nat.le_of_not_lt hj)]

theorem map_getD_range {α} [Inhabited α] (l : List α) :
    (List.range l.length).map (fun i => l.getD i default) = l := by
  apply List.ext_getElem
  · simp
  · intro i h1 h2
    rw [List.getElem_map]
    simp only [List.getElem_range]
    exact List.getD_eq_getElem _ _ h2

/-! ### Pointwise facts about the per-command record updates -/

theorem trackApply_number (t : TrackRec) (cmd args : String) :
    (trackApply t cmd args).number = t.number := by
  unfold trackApply
  repeat' split
  all_goals rfl

theorem trackApply_startTime (t : TrackRec) (cmd args : String) (h : ¬ cmd = "INDEX") :
    (trackApply t cmd args).startTime = t.startTime := by
  unfold trackApply
  repeat' split
  all_goals first
    | rfl
    | exact absurd (by assumption) h

theorem trackApply_index_eff (t : TrackRec) (a : String) (h : isEffIndexArgs a = true) :
    ((trackApply t ("INDEX") a).startTime).isSome = true := by
  unfold isEffIndexArgs at h
  rw [Bool.and_eq_true] at h
  unfold trackApply
  rw [if_neg (by decide : ¬ (("INDEX" : String) = "TITLE")),
      if_neg (by decide : ¬ (("INDEX" : String) = "PERFORMER")),
      if_pos (rfl : ("INDEX" : String) = "INDEX"), if_pos h.1]
  cases hsp : pySplitWs a with
  | nil => rw [hsp] at h; exact absurd h.2 (by simp)
  | cons x tl =>
    cases tl with
    | nil => rw [hsp] at h; exact absurd h.2 (by simp)
    | cons w tr => rfl

theorem trackApply_index_neff (t : TrackRec) (a : String) (h : isEffIndexArgs a = false) :
    trackApply t ("INDEX") a = t := by
  unfold isEffIndexArgs at h
  unfold trackApply
  rw [if_neg (by decide : ¬ (("INDEX" : String) = "TITLE")),
      if_neg (by decide : ¬ (("INDEX" : String) = "PERFORMER")),
      if_pos (rfl : ("INDEX" : String) = "INDEX")]
  by_cases hs : strStarts a ("01") = true
  · rw [if_pos hs]
    rw [hs] at h
    simp only [Bool.true_and] at h
    cases hsp : pySplitWs a with
    | nil => rfl
    | cons x tl =>
      cases tl with
      | nil => rfl
      | cons w tr => rw [hsp] at h; exact absurd h (by simp)
  · rw [if_neg hs]

/-! ### Shape of a single parser step -/

theorem step_eq_none {s : PState} {l : String} (h : cmdOf l = none) : step s l = s := by
  simp [step, h]

theorem step_eq_track {s : PState} {l a : String} {n : Nat}
    (h : cmdOf l = some (("TRACK"), a)) (hn : leadingNum a = some n) :
    step s l = { album := s.album, heap := s.heap ++ [mkTrack n s.album.performer],
                 refs := s.refs ++ curList s, cur := some s.heap.length } := by
  simp [step, h, applyCmd, hn]

theorem step_eq_track_bad {s : PState} {l a : String}
    (h : cmdOf l = some (("TRACK"), a)) (hn : leadingNum a = none) :
    step s l = { s with refs := s.refs ++ curList s } := by
  simp [step, h, applyCmd, hn]

theorem step_eq_album {s : PState} {l c a : String} (h : cmdOf l = some (c, a))
    (hT : ¬ c = "TRACK") (hF : ¬ c = "FILE") (hcur : s.cur = none) :
    step s l = { s with album := albumApply s.album c a } := by
  simp [step, h, applyCmd, hT, hF, hcur]

theorem step_eq_track_upd {s : PState} {l c a : String} {r : Nat} (h : cmdOf l = some (c, a))
    (hT : ¬ c = "TRACK") (hF : ¬ c = "FILE") (hcur : s.cur = some r) :
    step s l = { s with heap := s.heap.set r (trackApply (s.heap.getD r default) c a) } := by
  simp [step, h, applyCmd, hT, hF, hcur]

theorem step_eq_file {s : PState} {l a : String} (h : cmdOf l = some (("FILE"), a)) :
    step s l = (match s.cur with
      | none => { s with album := { s.album with file :=
          (match findQuoted a.data with
           | some q => some q
           | none =>
             match pySplitWs a with
             | [] => s.album.file
             | tok :: _ => some tok) } }
      | some _ => s) := by
  obtain ⟨alb, hp, rf, cu⟩ := s
  have e : step (PState.mk alb hp rf cu) l = applyCmd (PState.mk alb hp rf cu) ("FILE") a := by
    simp [step, h]
  rw [e]
  unfold applyCmd
  rw [if_neg (by decide : ¬ (("FILE" : String) = "TRACK")),
      if_pos (rfl : ("FILE" : String) = "FILE")]
  cases cu with
  | none =>
    cases hq : findQuoted a.data with
    | some q => rfl
    | none =>
      cases hsp : pySplitWs a with
      | nil => rfl
      | cons tok tl => rfl
  | some r => rfl
/-! ### Preservation of the structural invariant by one step -/

theorem optList_some (r : Nat) : optList (some r) = [r] := rfl

theorem optList_none : optList none = [] := rfl

theorem curList_none {s : PState} (h : s.cur = none) : curList s = [] := by
  simp [curList, h, optList]

theorem curList_some {s : PState} {r : Nat} (h : s.cur = some r) : curList s = [r] := by
  simp [curList, h, optList]

theorem flagStep_track {flags : List Bool} {l : String} (ht : isTrackCmd l = true)
    (hn : (trackNumOf l).isSome = true) : flagStep flags l = flags ++ [false] := by
  unfold flagStep
  rw [ht, hn]
  simp

theorem flagStep_eff {flags : List Bool} {l : String} (ht : isTrackCmd l = false)
    (he : isEffIndex l = true) :
    flagStep flags l = (if flags.isEmpty then flags else flags.dropLast ++ [true]) := by
  unfold flagStep
  rw [ht, he]
  simp

theorem flagStep_other {flags : List Bool} {l : String} (ht : isTrackCmd l = false)
    (he : isEffIndex l = false) : flagStep flags l = flags := by
  unfold flagStep
  rw [ht, he]
  simp

theorem step_inv {s : PState} {l : String}
    (hok : isTrackCmd l = true → (trackNumOf l).isSome = true) (hI : StInv s) :
    StInv (step s l) ∧
    stNums (step s l) = stNums s ++ (trackNumOf l).toList ∧
    stFlags (step s l) = flagStep (stFlags s) l := by
  obtain ⟨alb, hp, rf, cu⟩ := s
  obtain ⟨h1, h2⟩ := hI
  simp only [StInv, stNums, stFlags, curList] at h1 h2 ⊢
  cases hcmd : cmdOf l with
  | none =>
    rw [step_eq_none hcmd]
    have ht : isTrackCmd l = false := by simp [isTrackCmd, hcmd]
    have hn : trackNumOf l = none := by simp [trackNumOf, hcmd]
    have he : isEffIndex l = false := by simp [isEffIndex, hcmd]
    refine ⟨⟨h1, h2⟩, by simp [hn], ?_⟩
    simp [flagStep, ht, he]
  | some p =>
    obtain ⟨c, a⟩ := p
    by_cases hT : c = "TRACK"
    · subst hT
      have htr : isTrackCmd l = true := by simp [isTrackCmd, hcmd]
      have hnum : trackNumOf l = leadingNum a := by simp [trackNumOf, hcmd]
      have hsome := hok htr
      rw [hnum] at hsome
      obtain ⟨n, hn⟩ := Option.isSome_iff_exists.mp hsome
      rw [step_eq_track hcmd hn]
      have hbound : ∀ x ∈ rf ++ optList cu, x < hp.length := by
        intro x hx
        rw [h1] at hx
        exact List.mem_range.mp hx
      refine ⟨⟨?_, by simp⟩, ?_, ?_⟩
      · show (rf ++ optList cu) ++ optList (some hp.length) =
          List.range (hp ++ [mkTrack n alb.performer]).length
        rw [optList_some, h1, List.length_append, List.length_singleton,
          List.range_succ]
      · show ((rf ++ optList cu) ++ optList (some hp.length)).map
            (fun r => ((hp ++ [mkTrack n alb.performer]).getD r default).number) =
          (rf ++ optList cu).map (fun r => (hp.getD r default).number) ++
            (trackNumOf l).toList
        rw [optList_some, List.map_append, hnum, hn]
        congr 1
        · exact List.map_congr_left (fun x hx => by
            rw [List.getD_append _ _ _ _ (hbound x hx)])
        · rw [List.map_cons, List.map_nil, getD_append_length]
          rfl
      · show ((rf ++ optList cu) ++ optList (some hp.length)).map
            (fun r => ((hp ++ [mkTrack n alb.performer]).getD r default).startTime.isSome) =
          flagStep ((rf ++ optList cu).map
            (fun r => (hp.getD r default).startTime.isSome)) l
        rw [optList_some, List.map_append,
          flagStep_track htr (by rw [hnum, hn]; rfl)]
        congr 1
        · exact List.map_congr_left (fun x hx => by
            rw [List.getD_append _ _ _ _ (hbound x hx)])
        · rw [List.map_cons, List.map_nil, getD_append_length]
          rfl
    · have ht : isTrackCmd l = false := by
        simp only [isTrackCmd, hcmd]
        exact beq_eq_false_iff_ne.mpr hT
      have hn : trackNumOf l = none := by simp [trackNumOf, hcmd, hT]
      cases cu with
      | none =>
        have hrf : rf = [] := h2 rfl
        subst hrf
        have hone : ∃ alb2, step (PState.mk alb hp [] none) l = PState.mk alb2 hp [] none := by
          by_cases hF : c = "FILE"
          · subst hF
            rw [step_eq_file hcmd]
            exact ⟨_, rfl⟩
          · rw [step_eq_album hcmd hT hF rfl]
            exact ⟨_, rfl⟩
        obtain ⟨alb2, hstep⟩ := hone
        rw [hstep]
        refine ⟨⟨h1, fun _ => rfl⟩, by simp [hn, optList], ?_⟩
        show (([] : List Nat) ++ optList none).map
            (fun r => (hp.getD r default).startTime.isSome) =
          flagStep ((([] : List Nat) ++ optList none).map
            (fun r => (hp.getD r default).startTime.isSome)) l
        have hnil : (([] : List Nat) ++ optList none).map
            (fun r => (hp.getD r default).startTime.isSome) = [] := rfl
        rw [hnil]
        unfold flagStep
        rw [ht]
        simp only [Bool.false_and]
        rw [if_neg (by simp : ¬ (false = true))]
        cases isEffIndex l <;> simp
      | some r =>
        simp only [optList_some] at h1 ⊢
        have hlen : rf.length + 1 = hp.length := by
          have := congrArg List.length h1
          simpa using this
        have h1l : rf ++ [r] = List.range rf.length ++ [rf.length] := by
          rw [h1, ← hlen, List.range_succ]
        have hparts := List.append_inj' h1l (by simp)
        have hr : r = rf.length := by simpa using hparts.2
        have hrlt : r < hp.length := by omega
        have hnotin : r ∉ rf := by
          intro hmem
          rw [hparts.1, List.mem_range] at hmem
          omega
        have hmemne : ∀ x ∈ rf, ¬ r = x := fun x hx he => hnotin (he ▸ hx)
        by_cases hF : c = "FILE"
        · subst hF
          have hstep : step (PState.mk alb hp rf (some r)) l = PState.mk alb hp rf (some r) := by
            rw [step_eq_file hcmd]
          rw [hstep]
          have he : isEffIndex l = false := by simp [isEffIndex, hcmd]
          refine ⟨⟨h1, by simp⟩, by simp [hn, optList], ?_⟩
          rw [flagStep_other ht he]
          simp [optList]
        · rw [step_eq_track_upd hcmd hT hF rfl]
          refine ⟨⟨?_, by simp⟩, ?_, ?_⟩
          · show rf ++ optList (some r) =
              List.range (hp.set r (trackApply (hp.getD r default) c a)).length
            rw [optList_some, List.length_set]
            exact h1
          · show (rf ++ optList (some r)).map
                (fun x => ((hp.set r (trackApply (hp.getD r default) c a)).getD x default).number) =
              (rf ++ [r]).map (fun x => (hp.getD x default).number) ++ (trackNumOf l).toList
            rw [optList_some, hn]
            show _ = (rf ++ [r]).map (fun x => (hp.getD x default).number) ++ []
            rw [List.append_nil]
            apply List.map_congr_left
            intro x hx
            rcases List.mem_append.mp hx with hxr | hxc
            · rw [getD_set_ne _ _ (hmemne x hxr)]
            · have hxeq : x = r := by simpa using hxc
              subst hxeq
              rw [getD_set_self _ _ _ hrlt, trackApply_number]
          · show (rf ++ optList (some r)).map
                (fun x => ((hp.set r (trackApply (hp.getD r default) c a)).getD x default).startTime.isSome) =
              flagStep ((rf ++ [r]).map
                (fun x => (hp.getD x default).startTime.isSome)) l
            rw [optList_some, List.map_append, List.map_append]
            have hpart : rf.map
                (fun x => ((hp.set r (trackApply (hp.getD r default) c a)).getD x default).startTime.isSome) =
                rf.map (fun x => (hp.getD x default).startTime.isSome) :=
              List.map_congr_left (fun x hx => by rw [getD_set_ne _ _ (hmemne x hx)])
            rw [hpart, List.map_cons, List.map_nil, List.map_cons, List.map_nil,
              getD_set_self _ _ _ hrlt]
            by_cases hIdx : c = "INDEX"
            · subst hIdx
              have heidx : isEffIndex l = isEffIndexArgs a := by simp [isEffIndex, hcmd]
              by_cases heff : isEffIndexArgs a = true
              · rw [trackApply_index_eff _ _ heff,
                  flagStep_eff ht (by rw [heidx]; exact heff)]
                rw [if_neg (by simp : ¬ ((rf.map (fun x => (hp.getD x default).startTime.isSome)
                    ++ [(hp.getD r default).startTime.isSome]).isEmpty = true)),
                  List.dropLast_concat]
              · rw [trackApply_index_neff _ _ (by simpa using heff),
                  flagStep_other ht (by rw [heidx]; exact Bool.eq_false_iff.mpr heff)]
            · have he : isEffIndex l = false := by
                simp only [isEffIndex, hcmd]
                rw [beq_eq_false_iff_ne.mpr hIdx]
                rfl
              rw [trackApply_startTime _ _ _ hIdx, flagStep_other ht he]
/-! ### The whole-input invariant and the end-time loop -/

theorem foldl_inv : ∀ (lines : List String) (s : PState),
    (∀ l ∈ lines, isTrackCmd l = true → (trackNumOf l).isSome = true) → StInv s →
    StInv (lines.foldl step s) ∧
    stNums (lines.foldl step s) = stNums s ++ lines.filterMap trackNumOf ∧
    stFlags (lines.foldl step s) = lines.foldl flagStep (stFlags s)
  | [], s, _, hI => ⟨hI, by simp, rfl⟩
  | l :: ls, s, hok, hI => by
    obtain ⟨i1, i2, i3⟩ := step_inv (hok l (by simp)) hI
    obtain ⟨g1, g2, g3⟩ :=
      foldl_inv ls (step s l) (fun x hx => hok x (List.mem_cons_of_mem _ hx)) i1
    refine ⟨g1, ?_, ?_⟩
    · rw [List.foldl_cons, g2, i2, List.filterMap_cons]
      cases hx : trackNumOf l
      · simp
      · simp
    · rw [List.foldl_cons, g3, i3, List.foldl_cons]

theorem initState_inv : StInv initState := ⟨rfl, fun _ => rfl⟩

theorem endGo_split : ∀ (rest pre : List TrackRec),
    endGo (pre ++ rest) (List.range' pre.length rest.length) =
      (chainEnds rest).map (fun out => pre ++ out)
  | [], pre => by
    simp [endGo, chainEnds]
  | [t], pre => by
    show some ((pre ++ [t]).set pre.length
        (setEnd ((pre ++ [t]).getD pre.length default) none)) =
      (chainEnds [t]).map (fun out => pre ++ out)
    rw [getD_append_length, List.set_append_right _ _ (Nat.le_refl _)]
    simp [chainEnds]
  | t1 :: t2 :: rest, pre => by
    have e1 : List.range' pre.length (t1 :: t2 :: rest).length
        = pre.length :: (pre.length + 1) :: List.range' (pre.length + 2) rest.length := by
      simp [List.range'_succ]
    rw [e1]
    have egetnext : (pre ++ t1 :: t2 :: rest).getD (pre.length + 1) default = t2 := by
      rw [List.getD_append_right _ _ _ _ (by omega)]
      have e2 : pre.length + 1 - pre.length = 1 := by omega
      rw [e2]
      rfl
    show (match ((pre ++ t1 :: t2 :: rest).getD (pre.length + 1) default).startTime with
      | none => none
      | some sNext => endGo ((pre ++ t1 :: t2 :: rest).set pre.length
          (setEnd ((pre ++ t1 :: t2 :: rest).getD pre.length default) (some sNext)))
          ((pre.length + 1) :: List.range' (pre.length + 2) rest.length)) =
      (chainEnds (t1 :: t2 :: rest)).map (fun out => pre ++ out)
    rw [egetnext]
    cases hst : t2.startTime with
    | none =>
      simp [chainEnds, hst]
    | some sN =>
      have egetcur : (pre ++ t1 :: t2 :: rest).getD pre.length default = t1 := by
        rw [List.getD_append_right _ _ _ _ (Nat.le_refl _)]
        simp
      have eset : (pre ++ t1 :: t2 :: rest).set pre.length (setEnd t1 (some sN))
          = (pre ++ [setEnd t1 (some sN)]) ++ t2 :: rest := by
        rw [List.set_append_right _ _ (Nat.le_refl _)]
        simp
      have erefs : (pre.length + 1) :: List.range' (pre.length + 2) rest.length
          = List.range' (pre ++ [setEnd t1 (some sN)]).length (t2 :: rest).length := by
        simp [List.range'_succ]
      show endGo ((pre ++ t1 :: t2 :: rest).set pre.length
          (setEnd ((pre ++ t1 :: t2 :: rest).getD pre.length default) (some sN)))
          ((pre.length + 1) :: List.range' (pre.length + 2) rest.length) =
        (chainEnds (t1 :: t2 :: rest)).map (fun out => pre ++ out)
      rw [egetcur, eset, erefs, endGo_split (t2 :: rest) (pre ++ [setEnd t1 (some sN)])]
      simp only [chainEnds, hst]
      rw [Option.map_map]
      cases chainEnds (t2 :: rest) with
      | none => rfl
      | some out2 => simp

theorem endGo_chainEnds (heap : List TrackRec) :
    endGo heap (List.range heap.length) = chainEnds heap := by
  have h := endGo_split heap []
  rw [List.range_eq_range']
  simpa using h

theorem chainEnds_length : ∀ (l out : List TrackRec), chainEnds l = some out →
    out.length = l.length
  | [], out, h => by
    simp only [chainEnds, Option.some.injEq] at h
    subst h
    rfl
  | [t], out, h => by
    simp only [chainEnds, Option.some.injEq] at h
    subst h
    rfl
  | t1 :: t2 :: rest, out, h => by
    simp only [chainEnds] at h
    cases hst : t2.startTime with
    | none => rw [hst] at h; exact absurd h (by simp)
    | some sN =>
      rw [hst] at h
      obtain ⟨out2, hout2, hfo⟩ := Option.map_eq_some'.mp h
      have ih := chainEnds_length (t2 :: rest) out2 hout2
      rw [← hfo]
      simp [ih]

theorem chainEnds_pres : ∀ (l out : List TrackRec), chainEnds l = some out →
    out.map (fun t => t.number) = l.map (fun t => t.number) ∧
    out.map (fun t => t.startTime) = l.map (fun t => t.startTime)
  | [], out, h => by
    simp only [chainEnds, Option.some.injEq] at h
    subst h
    exact ⟨rfl, rfl⟩
  | [t], out, h => by
    simp only [chainEnds, Option.some.injEq] at h
    subst h
    exact ⟨rfl, rfl⟩
  | t1 :: t2 :: rest, out, h => by
    simp only [chainEnds] at h
    cases hst : t2.startTime with
    | none => rw [hst] at h; exact absurd h (by simp)
    | some sN =>
      rw [hst] at h
      obtain ⟨out2, hout2, hfo⟩ := Option.map_eq_some'.mp h
      obtain ⟨ih1, ih2⟩ := chainEnds_pres (t2 :: rest) out2 hout2
      rw [← hfo]
      exact ⟨by simp [setEnd, ih1], by simp [setEnd, ih2]⟩

theorem chainEnds_isSome : ∀ (l : List TrackRec),
    (chainEnds l).isSome = true ↔ ∀ t ∈ l.tail, t.startTime.isSome = true
  | [] => by simp [chainEnds]
  | [t] => by simp [chainEnds]
  | t1 :: t2 :: rest => by
    constructor
    · intro h t ht
      cases hst : t2.startTime with
      | none =>
        simp only [chainEnds, hst] at h
        exact absurd h (by simp)
      | some sN =>
        simp only [chainEnds, hst] at h
        cases hce : chainEnds (t2 :: rest) with
        | none => rw [hce] at h; simp at h
        | some o =>
          have ih := (chainEnds_isSome (t2 :: rest)).mp (by rw [hce]; rfl)
          rcases List.mem_cons.mp ht with rfl | htr
          · simp [hst]
          · exact ih t htr
    · intro h
      have h2 : t2.startTime.isSome = true := h t2 (by simp)
      obtain ⟨sN, hst⟩ := Option.isSome_iff_exists.mp h2
      have ih := (chainEnds_isSome (t2 :: rest)).mpr
        (fun t ht => h t (List.mem_cons_of_mem _ ht))
      simp only [chainEnds, hst]
      cases hce : chainEnds (t2 :: rest) with
      | none => rw [hce] at ih; simp at ih
      | some o => simp [hce]

theorem chainEnds_chained : ∀ (l out : List TrackRec), chainEnds l = some out →
    endTimesChained out
  | [], out, h => by
    simp only [chainEnds, Option.some.injEq] at h
    subst h
    exact ⟨fun i hi => absurd hi (by simp), fun hne => absurd rfl hne⟩
  | [t], out, h => by
    simp only [chainEnds, Option.some.injEq] at h
    subst h
    refine ⟨fun i hi => absurd hi (by simp), fun _ => rfl⟩
  | t1 :: t2 :: rest, out, h => by
    simp only [chainEnds] at h
    cases hst : t2.startTime with
    | none => rw [hst] at h; exact absurd h (by simp)
    | some sN =>
      rw [hst] at h
      obtain ⟨out2, hout2, hfo⟩ := Option.map_eq_some'.mp h
      have ih := chainEnds_chained (t2 :: rest) out2 hout2
      have hlen2 := chainEnds_length (t2 :: rest) out2 hout2
      have hpres := (chainEnds_pres (t2 :: rest) out2 hout2).2
      have hhead : (out2.getD 0 default).startTime = t2.startTime := by
        have h0 := congrArg (fun L => L.getD 0 ((default : TrackRec).startTime)) hpres
        simpa [List.getD_map] using h0
      rw [← hfo]
      constructor
      · intro i hi
        cases i with
        | zero =>
          have e0 : ((setEnd t1 (some sN) :: out2).getD 0 default).endTime
              = some (some sN) := rfl
          rw [e0]
          have e1 : (setEnd t1 (some sN) :: out2).getD 1 default = out2.getD 0 default := rfl
          rw [e1, hhead, hst]
        | succ k =>
          have e1 : (setEnd t1 (some sN) :: out2).getD (k + 1) default
              = out2.getD k default := rfl
          have e2 : (setEnd t1 (some sN) :: out2).getD (k + 2) default
              = out2.getD (k + 1) default := rfl
          rw [e1, e2]
          apply ih.1
          have := hi
          simp only [List.length_cons] at this
          omega
      · intro _
        have hne2 : out2 ≠ [] := by
          intro habs
          rw [habs] at hlen2
          simp at hlen2
        have e3 : (setEnd t1 (some sN) :: out2).length - 1 = (out2.length - 1) + 1 := by
          have : 1 ≤ out2.length := by
            cases out2 with
            | nil => exact absurd rfl hne2
            | cons _ _ => simp
          simp only [List.length_cons]
          omega
        rw [e3]
        have e4 : (setEnd t1 (some sN) :: out2).getD ((out2.length - 1) + 1) default
            = out2.getD (out2.length - 1) default := rfl
        rw [e4]
        exact ih.2 hne2

/-- The parser characterized on inputs whose TRACK directives all carry valid
numbers: the final heap lists the built tracks in order, and the result is the
end-time chain over that heap. -/
theorem parse_char (lines : List String)
    (hok : ∀ l ∈ lines, isTrackCmd l = true → (trackNumOf l).isSome = true) :
    parse lines = (chainEnds ((lines.foldl step initState).heap)).map
      (fun out => ((lines.foldl step initState).album, out)) := by
  obtain ⟨hInv, hNums, hFlags⟩ := foldl_inv lines initState hok initState_inv
  by_cases hnil : lines.isEmpty = true
  · have : lines = [] := by
      cases lines with
      | nil => rfl
      | cons x xs => simp at hnil
    subst this
    rfl
  · have hrange : (lines.foldl step initState).refs ++ curList (lines.foldl step initState)
        = List.range (lines.foldl step initState).heap.length := hInv.1
    unfold parse
    rw [if_neg hnil]
    show (if ((lines.foldl step initState).refs ++ curList (lines.foldl step initState)).isEmpty
        then some ((lines.foldl step initState).album, []) else _) = _
    rw [hrange]
    cases hK : (lines.foldl step initState).heap.length with
    | zero =>
      have hheap : (lines.foldl step initState).heap = [] := List.length_eq_zero.mp hK
      rw [if_pos (show (List.range 0).isEmpty = true from rfl), hheap]
      rfl
    | succ k =>
      rw [if_neg (by simp)]
      dsimp only
      rw [← hK, endGo_chainEnds]
      cases hch : chainEnds (lines.foldl step initState).heap with
      | none => rfl
      | some out =>
        have hlen := chainEnds_length _ _ hch
        simp only [Option.map_some']
        rw [← hlen, map_getD_range]

/-! ### Derived facts feeding the claims -/

theorem map_getD_range_f {α β : Type} [Inhabited α] (l : List α) (f : α → β) :
    (List.range l.length).map (fun i => f (l.getD i default)) = l.map f := by
  have h := congrArg (List.map f) (map_getD_range l)
  rw [List.map_map] at h
  exact h

theorem map_tail_comm {α β : Type} (f : α → β) (l : List α) :
    (l.map f).tail = l.tail.map f := by
  cases l <;> rfl

theorem heap_nums (lines : List String) (hok : validTracksOnly lines) :
    (lines.foldl step initState).heap.map (fun t => t.number) = trackNums lines := by
  obtain ⟨hInv, hNums, _⟩ := foldl_inv lines initState hok initState_inv
  have h1 : stNums (lines.foldl step initState) = trackNums lines := by
    rw [hNums]
    rfl
  rw [← h1]
  unfold stNums
  rw [hInv.1]
  exact (map_getD_range_f _ _).symm

theorem heap_flags (lines : List String) (hok : validTracksOnly lines) :
    (lines.foldl step initState).heap.map (fun t => t.startTime.isSome) = sectionFlags lines := by
  obtain ⟨hInv, _, hFlags⟩ := foldl_inv lines initState hok initState_inv
  have h1 : stFlags (lines.foldl step initState) = sectionFlags lines := hFlags
  rw [← h1]
  unfold stFlags
  rw [hInv.1]
  exact (map_getD_range_f _ _).symm

theorem trackNums_length (lines : List String) (hok : validTracksOnly lines) :
    (trackNums lines).length = (lines.filter isTrackCmd).length := by
  induction lines with
  | nil => rfl
  | cons l ls ih =>
    have hok2 : validTracksOnly ls := fun x hx => hok x (List.mem_cons_of_mem _ hx)
    unfold trackNums at *
    rw [List.filterMap_cons, List.filter_cons]
    cases hl : isTrackCmd l with
    | false =>
      have hnone : trackNumOf l = none := by
        unfold trackNumOf
        cases hcmd : cmdOf l with
        | none => rfl
        | some p =>
          obtain ⟨c, a⟩ := p
          have hb : (c == "TRACK") = false := by
            have hl2 := hl
            unfold isTrackCmd at hl2
            rw [hcmd] at hl2
            exact hl2
          simp [hb]
      rw [hnone]
      simp [hl, ih hok2]
    | true =>
      have hs := hok l (by simp) hl
      obtain ⟨n, hn⟩ := Option.isSome_iff_exists.mp hs
      rw [hn]
      simp [hl, ih hok2]

theorem parse_isSome_of_flags (lines : List String) (hv : validTracksOnly lines)
    (hidx : ∀ b ∈ (sectionFlags lines).tail, b = true) : (parse lines).isSome = true := by
  rw [parse_char lines hv]
  have hflags := heap_flags lines hv
  have hall : ∀ t ∈ (lines.foldl step initState).heap.tail, t.startTime.isSome = true := by
    intro t ht
    have hmem : t.startTime.isSome ∈
        ((lines.foldl step initState).heap.map (fun t => t.startTime.isSome)).tail := by
      rw [map_tail_comm]
      exact List.mem_map_of_mem _ ht
    rw [hflags] at hmem
    exact hidx _ hmem
  have hsome := (chainEnds_isSome _).mpr hall
  cases hch : chainEnds ((lines.foldl step initState).heap) with
  | none => rw [hch] at hsome; simp at hsome
  | some out => rfl

theorem parse_none_of_flag_false (lines : List String) (hv : validTracksOnly lines)
    (hbad : ∃ b ∈ (sectionFlags lines).tail, b = false) : parse lines = none := by
  obtain ⟨b, hb, rfl⟩ := hbad
  have hflags := heap_flags lines hv
  rw [← hflags, map_tail_comm] at hb
  obtain ⟨t, ht, hft⟩ := List.mem_map.mp hb
  have hnot : ¬ ((chainEnds ((lines.foldl step initState).heap)).isSome = true) := by
    intro hs
    have := (chainEnds_isSome _).mp hs t ht
    rw [hft] at this
    exact absurd this (by simp)
  rw [parse_char lines hv]
  cases hch : chainEnds ((lines.foldl step initState).heap) with
  | none => rfl
  | some out => rw [hch] at hnot; exact absurd rfl hnot

/-! ### Claim theorems -/

/-- C6: for timestamps of the form mm:ss:ff with integer fields the INDEX 01
conversion returns minutes * 60 + seconds + frames / 75, and every other
timestamp string converts to zero instead of raising. -/
theorem c6_parse_time_spec :
    (∀ (t x y z : String) (m s f : Int), splitColon t = [x, y, z] →
      pyInt x = some m → pyInt y = some s → pyInt z = some f →
      parse_time t = (m : ℚ) * 60 + (s : ℚ) + (f : ℚ) / 75) ∧
    (∀ t : String,
      (match splitColon t with
       | [x, y, z] => (pyInt x).isNone = true ∨ (pyInt y).isNone = true ∨
           (pyInt z).isNone = true
       | _ => True) → parse_time t = 0) := by
  constructor
  · intro t x y z m s f hsp hx hy hz
    unfold parse_time
    rw [hsp]
    show (match pyInt x, pyInt y, pyInt z with
      | some m, some s, some f => mkRat (m * 4500 + s * 75 + f) 75
      | _, _, _ => 0) = (m : ℚ) * 60 + (s : ℚ) + (f : ℚ) / 75
    rw [hx, hy, hz]
    show mkRat (m * 4500 + s * 75 + f) 75 = (m : ℚ) * 60 + (s : ℚ) + (f : ℚ) / 75
    rw [Rat.mkRat_eq_div]
    push_cast
    field_simp
    ring
  · intro t hbad
    unfold parse_time
    rcases hsp : splitColon t with _ | ⟨x, _ | ⟨y, _ | ⟨z, _ | ⟨w, rest⟩⟩⟩⟩
    · rfl
    · rfl
    · rfl
    · rw [hsp] at hbad
      have hb : (pyInt x).isNone = true ∨ (pyInt y).isNone = true ∨
          (pyInt z).isNone = true := hbad
      show (match pyInt x, pyInt y, pyInt z with
        | some m, some s, some f => mkRat (m * 4500 + s * 75 + f) 75
        | _, _, _ => 0) = (0 : ℚ)
      cases hx : pyInt x with
      | none => cases hy : pyInt y <;> cases hz : pyInt z <;> rfl
      | some m =>
        cases hy : pyInt y with
        | none => cases hz : pyInt z <;> rfl
        | some s2 =>
          cases hz : pyInt z with
          | none => rfl
          | some f2 =>
            exfalso
            rcases hb with hcon | hcon | hcon
            · rw [hx] at hcon; simp at hcon
            · rw [hy] at hcon; simp at hcon
            · rw [hz] at hcon; simp at hcon
    · rfl

/-- C6 witness: the spec's example timestamp, and a malformed one. -/
theorem c6_parse_time_spec_witness :
    parse_time ("02:03:37") = (2 : ℚ) * 60 + (3 : ℚ) + (37 : ℚ) / 75 ∧
    parse_time ("bogus") = 0 :=
  ⟨c6_parse_time_spec.1 ("02:03:37") ("02") ("03") ("37") 2 3 37 (by decide)
      (by decide) (by decide) (by decide),
    c6_parse_time_spec.2 ("bogus") (by exact trivial)⟩

/-- C1 counterexample: a final TRACK directive with a non-numeric argument
makes the parser append the same aliased record twice; in the returned list
the first record's end time is Python None, not the second record's start
time, so the claimed chain property fails on this parse output. -/
theorem c1_counterexample :
    parse (["TRACK 01 AUDIO", "INDEX 01 00:02:00", "TRACK X AUDIO"]) =
      some (emptyAlbum,
        [{ number := 1, performer := none, title := "音轨 1", startTime := some 2,
           endTime := some none, rem := [] },
         { number := 1, performer := none, title := "音轨 1", startTime := some 2,
           endTime := some none, rem := [] }]) ∧
    ¬ endTimesChained
        [{ number := 1, performer := none, title := "音轨 1", startTime := some 2,
           endTime := some none, rem := [] },
         { number := 1, performer := none, title := "音轨 1", startTime := some 2,
           endTime := some none, rem := [] }] := by
  refine ⟨by decide, fun h => ?_⟩
  exact absurd (h.1 0 (by decide)) (by decide)

/-- C1 amended: on every input whose TRACK directives all carry digit-initial
arguments, whenever parse returns a track list, each non-last track's end time
equals the next track's start time and the last track's end time is None. -/
theorem c1_endtimes_chained (lines : List String) (a : AlbumRec) (ts : List TrackRec)
    (hv : validTracksOnly lines) (hp : parse lines = some (a, ts)) :
    endTimesChained ts := by
  have hchar := parse_char lines hv
  rw [hp] at hchar
  cases hch : chainEnds ((lines.foldl step initState).heap) with
  | none => rw [hch] at hchar; exact absurd hchar (by simp)
  | some out =>
    rw [hch] at hchar
    simp only [Option.map_some', Option.some.injEq, Prod.mk.injEq] at hchar
    obtain ⟨_, hts⟩ := hchar
    subst hts
    exact chainEnds_chained _ _ hch

/-- C1 witness: a two-track cue with valid numbers and indexes. -/
theorem c1_endtimes_chained_witness :
    validTracksOnly (["TRACK 01 AUDIO", "INDEX 01 00:00:00",
        "TRACK 02 AUDIO", "INDEX 01 00:30:00"]) ∧
    endTimesChained
      [{ number := 1, performer := none, title := "音轨 1", startTime := some 0,
         endTime := some (some 30), rem := [] },
       { number := 2, performer := none, title := "音轨 2", startTime := some 30,
         endTime := some none, rem := [] }] :=
  ⟨by decide,
    c1_endtimes_chained
      (["TRACK 01 AUDIO", "INDEX 01 00:00:00", "TRACK 02 AUDIO", "INDEX 01 00:30:00"])
      emptyAlbum
      [{ number := 1, performer := none, title := "音轨 1", startTime := some 0,
         endTime := some (some 30), rem := [] },
       { number := 2, performer := none, title := "音轨 2", startTime := some 30,
         endTime := some none, rem := [] }]
      (by decide) (by decide)⟩

/-- C2: on valid cue text (every TRACK directive numbered, every section after
the first carrying an INDEX 01 line, numbers strictly ascending) the parser
succeeds and returns exactly one record per TRACK directive, numbered in order
of first appearance and hence ascending. -/
theorem c2_track_count_order (lines : List String) (hv : validTracksOnly lines)
    (hidx : ∀ b ∈ (sectionFlags lines).tail, b = true)
    (hasc : List.Chain' (· < ·) (trackNums lines)) :
    (parse lines).isSome = true ∧
    ∀ a ts, parse lines = some (a, ts) →
      ts.length = (lines.filter isTrackCmd).length ∧
      ts.map (fun t => t.number) = trackNums lines ∧
      List.Chain' (· < ·) (ts.map (fun t => t.number)) := by
  refine ⟨parse_isSome_of_flags lines hv hidx, ?_⟩
  intro a ts hp
  have hchar := parse_char lines hv
  rw [hp] at hchar
  cases hch : chainEnds ((lines.foldl step initState).heap) with
  | none => rw [hch] at hchar; exact absurd hchar (by simp)
  | some out =>
    rw [hch] at hchar
    simp only [Option.map_some', Option.some.injEq, Prod.mk.injEq] at hchar
    obtain ⟨_, hts⟩ := hchar
    have hnums := (chainEnds_pres _ _ hch).1
    have hmapeq : ts.map (fun t => t.number) = trackNums lines := by
      rw [hts]
      exact ((chainEnds_pres _ _ hch).1).trans (heap_nums lines hv)
    refine ⟨?_, hmapeq, ?_⟩
    · have hlen1 : ts.length = (trackNums lines).length := by
        rw [← hmapeq, List.length_map]
      rw [hlen1, trackNums_length lines hv]
    · rw [hmapeq]
      exact hasc

/-- C2 witness: a concrete two-track cue. -/
theorem c2_track_count_order_witness :
    (parse (["PERFORMER Artist", "TRACK 01 AUDIO", "INDEX 01 00:00:00",
        "TRACK 02 AUDIO", "INDEX 01 01:00:00"])).isSome = true :=
  (c2_track_count_order
    (["PERFORMER Artist", "TRACK 01 AUDIO", "INDEX 01 00:00:00",
        "TRACK 02 AUDIO", "INDEX 01 01:00:00"])
    (by decide) (by decide)
    (by
      have h : trackNums (["PERFORMER Artist", "TRACK 01 AUDIO", "INDEX 01 00:00:00",
          "TRACK 02 AUDIO", "INDEX 01 01:00:00"]) = [1, 2] := by decide
      rw [h]
      exact List.chain'_cons.mpr ⟨by norm_num, List.chain'_singleton _⟩)).1

/-- C3 counterexample: an input producing no tracks whose album record is not
empty, so parse does not return an empty album record. -/
theorem c3_counterexample :
    (parse (["PERFORMER AA"])).map Prod.snd = some [] ∧
    parse (["PERFORMER AA"]) ≠ some (emptyAlbum, []) := by
  refine ⟨by decide, by decide⟩

theorem step_file_proj {s : PState} {l a : String} (h : cmdOf l = some (("FILE"), a)) :
    (step s l).cur = s.cur ∧ (step s l).refs = s.refs ∧ (step s l).heap = s.heap := by
  rw [step_eq_file h]
  cases hc : s.cur with
  | none =>
    cases hq : findQuoted a.data with
    | some q => exact ⟨rfl, rfl, rfl⟩
    | none =>
      cases hsp : pySplitWs a with
      | nil => exact ⟨rfl, rfl, rfl⟩
      | cons tok tl => exact ⟨rfl, rfl, rfl⟩
  | some r => exact ⟨hc, rfl, rfl⟩

theorem no_track_started : ∀ (lines : List String) (s : PState),
    (∀ l ∈ lines, (trackNumOf l).isNone = true) → s.cur = none →
    (lines.foldl step s).cur = none ∧ (lines.foldl step s).refs = s.refs ∧
    (lines.foldl step s).heap = s.heap
  | [], s, _, hc => ⟨hc, rfl, rfl⟩
  | l :: ls, s, hall, hc => by
    have hstep : (step s l).cur = none ∧ (step s l).refs = s.refs ∧
        (step s l).heap = s.heap := by
      cases hcmd : cmdOf l with
      | none => rw [step_eq_none hcmd]; exact ⟨hc, rfl, rfl⟩
      | some p =>
        obtain ⟨c, a⟩ := p
        by_cases hT : c = "TRACK"
        · subst hT
          have hnum : leadingNum a = none := by
            have hl := hall l (by simp)
            unfold trackNumOf at hl
            rw [hcmd] at hl
            simpa using hl
          rw [step_eq_track_bad hcmd hnum]
          refine ⟨hc, ?_, rfl⟩
          rw [curList_none hc]
          simp
        · by_cases hF : c = "FILE"
          · subst hF
            obtain ⟨e1, e2, e3⟩ := step_file_proj hcmd
            exact ⟨e1.trans hc, e2, e3⟩
          · rw [step_eq_album hcmd hT hF hc]
            exact ⟨hc, rfl, rfl⟩
    obtain ⟨e1, e2, e3⟩ := hstep
    obtain ⟨g1, g2, g3⟩ := no_track_started ls (step s l)
      (fun x hx => hall x (List.mem_cons_of_mem _ hx)) e1
    exact ⟨g1, g2.trans e2, g3.trans e3⟩

/-- C3 amended: whenever no line of the input starts a track, parse succeeds
with an empty track list and returns the album record accumulated from the
album-level directives (empty only if none occurred). -/
theorem c3_no_tracks (lines : List String)
    (h : ∀ l ∈ lines, (trackNumOf l).isNone = true) :
    parse lines = some ((lines.foldl step initState).album, []) := by
  obtain ⟨e1, e2, e3⟩ := no_track_started lines initState h rfl
  unfold parse
  by_cases hnil : lines.isEmpty = true
  · rw [if_pos hnil]
    have hlines : lines = [] := by
      cases lines with
      | nil => rfl
      | cons x xs => simp at hnil
    subst hlines
    rfl
  · rw [if_neg hnil]
    show (if ((lines.foldl step initState).refs ++
        curList (lines.foldl step initState)).isEmpty = true
      then some ((lines.foldl step initState).album, []) else _) = _
    rw [curList_none e1, e2]
    rfl

/-- C3 witness: a single album-level TITLE directive. -/
theorem c3_no_tracks_witness :
    parse (["TITLE Hello"]) =
      some ({ title := some ("Hello"), performer := none, file := none, rem := [] }, []) :=
  c3_no_tracks (["TITLE Hello"]) (by decide)

/-- C9: on an input whose final TRACK directive has a non-digit argument, the
previously built record is appended twice, so the returned list holds one
record in two positions and has more entries than there are validly numbered
TRACK directives. -/
theorem c9_duplicate_append :
    parse (["TRACK 01 AUDIO", "INDEX 01 00:00:00", "TRACK X AUDIO"]) =
      some (emptyAlbum,
        [{ number := 1, performer := none, title := "音轨 1", startTime := some 0,
           endTime := some none, rem := [] },
         { number := 1, performer := none, title := "音轨 1", startTime := some 0,
           endTime := some none, rem := [] }]) ∧
    (trackNums (["TRACK 01 AUDIO", "INDEX 01 00:00:00", "TRACK X AUDIO"])).length = 1 ∧
    (trackNums (["TRACK 01 AUDIO", "INDEX 01 00:00:00", "TRACK X AUDIO"])).length < 2 := by
  refine ⟨by decide, by decide, by decide⟩

/-- C10 counterexample: two TRACK directives where the section after the
second holds no INDEX 01 line, yet parse succeeds because the second
directive's non-digit argument aliased the first record. -/
theorem c10_counterexample :
    (parse (["TRACK 01 AUDIO", "INDEX 01 00:00:00", "TRACK X AUDIO"])).isSome = true ∧
    ((["TRACK 01 AUDIO", "INDEX 01 00:00:00", "TRACK X AUDIO"]).filter isTrackCmd).length = 2 ∧
    ∀ l ∈ (["TRACK 01 AUDIO", "INDEX 01 00:00:00", "TRACK X AUDIO"]).drop 2,
      isEffIndex l = false := by
  refine ⟨by decide, by decide, by decide⟩

/-- C10 amended: on inputs whose TRACK directives all carry digit-initial
arguments, parse raises (returns none) exactly when some track section after
the first lacks an effective INDEX 01 line; a missing INDEX 01 on the first
section alone never makes parse raise. -/
theorem c10_missing_index (lines : List String) (hv : validTracksOnly lines) :
    ((∃ b ∈ (sectionFlags lines).tail, b = false) → parse lines = none) ∧
    ((∀ b ∈ (sectionFlags lines).tail, b = true) → (parse lines).isSome = true) :=
  ⟨parse_none_of_flag_false lines hv, parse_isSome_of_flags lines hv⟩

/-- C10 witness: a second track with no INDEX 01 line makes parse fail. -/
theorem c10_missing_index_witness :
    parse (["TRACK 01 AUDIO", "INDEX 01 00:00:00", "TRACK 02 AUDIO"]) = none :=
  (c10_missing_index (["TRACK 01 AUDIO", "INDEX 01 00:00:00", "TRACK 02 AUDIO"])
    (by decide)).1 (by decide)

/-- C4 counterexample: with an empty track list every (vacuous) per-track
split outcome is a success, yet the album outcome is failure, so the claimed
equivalence fails. -/
theorem c4_counterexample :
    ¬ (∀ out, process_album 4 none (fun _ => (true, none)) none
        { title := none, performer := none, file := some ("x.flac"), rem := [] }
        ([] : List TrackRec) ("d") false = some out →
      (out.ok = true ↔
        ∀ r ∈ splitResults (fun _ => (true, none)) none ([] : List TrackRec), r.1 = true)) := by
  intro h
  have h2 := h { ok := false, diag := some ("错误：音轨列表为空，无法处理。"),
                 trace := [Effect.mkdirOut ("d/Untitled Album")], pool := none } (by decide)
  have h3 := h2.mpr (fun r hr => absurd hr (by simp [splitResults, applyProbe]))
  exact absurd h3 (by decide)

/-- C4 amended: for every call with a nonempty track list (and the album file
key present), the album outcome is success exactly when every per-track split
outcome succeeds, and on failure the diagnostic is the newline join of all
failed tracks' diagnostics, not only the first. -/
theorem c4_album_success_iff (cpu : Nat) (odir : Option String)
    (splitFn : TrackRec → Bool × Option String) (probe : Option ℚ) (album : AlbumRec)
    (tracks : List TrackRec) (sourceDir : String) (conc : Bool) (f : String)
    (hf : album.file = some f) (hne : tracks ≠ []) :
    ∀ out, process_album cpu odir splitFn probe album tracks sourceDir conc = some out →
      (out.ok = true ↔ ∀ r ∈ splitResults splitFn probe tracks, r.1 = true) ∧
      (out.ok = false → out.diag = some (joinWith ("\n")
        (((splitResults splitFn probe tracks).filter (fun r => !r.1)).map
          (fun r => (r.2).getD (""))))) := by
  intro out hout
  unfold process_album at hout
  rw [hf] at hout
  dsimp only at hout
  rw [if_neg (by simpa using hne)] at hout
  unfold splitResults
  by_cases hfe : ((((applyProbe probe tracks).map splitFn).filter (fun r => !r.1)).map
      (fun r => (r.2).getD (""))).isEmpty = true
  · rw [if_pos hfe] at hout
    rw [← Option.some.inj hout]
    constructor
    · constructor
      · intro _ r hr
        have hfil : ((applyProbe probe tracks).map splitFn).filter (fun r => !r.1) = [] :=
          List.map_eq_nil_iff.mp (List.isEmpty_iff.mp hfe)
        have hall := List.filter_eq_nil_iff.mp hfil
        simpa using hall r hr
      · intro _
        rfl
    · intro habs
      exact absurd habs (by simp)
  · rw [if_neg hfe] at hout
    rw [← Option.some.inj hout]
    constructor
    · constructor
      · intro habs
        exact absurd habs (by simp)
      · intro hall
        exfalso
        have hfil : ((applyProbe probe tracks).map splitFn).filter (fun r => !r.1) = [] := by
          refine List.filter_eq_nil_iff.mpr ?_
          intro r hr
          rw [hall r hr]
          simp
        rw [hfil] at hfe
        exact hfe rfl
    · intro _
      rfl

/-- C4 witness: one failing track among two, at the concrete outcome record. -/
theorem c4_album_success_iff_witness :
    (({ ok := false, diag := some ("boom"),
        trace := [Effect.mkdirOut ("d/Untitled Album"), Effect.probeDur ("d/x.flac"),
                  Effect.splitTrack 1, Effect.splitTrack 2],
        pool := none } : ProcOutcome).ok = true ↔ ∀ r ∈ splitResults
          (fun t => if t.number = 1 then (true, none) else (false, some ("boom")))
          none [mkTrack 1 none, mkTrack 2 none], r.1 = true) ∧
    (({ ok := false, diag := some ("boom"),
        trace := [Effect.mkdirOut ("d/Untitled Album"), Effect.probeDur ("d/x.flac"),
                  Effect.splitTrack 1, Effect.splitTrack 2],
        pool := none } : ProcOutcome).ok = false →
      ({ ok := false, diag := some ("boom"),
         trace := [Effect.mkdirOut ("d/Untitled Album"), Effect.probeDur ("d/x.flac"),
                   Effect.splitTrack 1, Effect.splitTrack 2],
         pool := none } : ProcOutcome).diag = some (joinWith ("\n")
        (((splitResults
            (fun t => if t.number = 1 then (true, none) else (false, some ("boom")))
            none [mkTrack 1 none, mkTrack 2 none]).filter (fun r => !r.1)).map
          (fun r => (r.2).getD (""))))) :=
  c4_album_success_iff 4 none
    (fun t => if t.number = 1 then (true, none) else (false, some ("boom")))
    none { title := none, performer := none, file := some ("x.flac"), rem := [] }
    [mkTrack 1 none, mkTrack 2 none] ("d") false ("x.flac") rfl (by decide)
    { ok := false, diag := some ("boom"),
      trace := [Effect.mkdirOut ("d/Untitled Album"), Effect.probeDur ("d/x.flac"),
                Effect.splitTrack 1, Effect.splitTrack 2],
      pool := none } (by decide)

/-- C7 counterexample: called with an empty track list, the processor still
creates the output directory before rejecting, so rejection does not happen
before output-directory creation. -/
theorem c7_counterexample :
    ¬ (∀ out, process_album 2 none (fun _ => (true, none)) none
        { title := none, performer := none, file := some ("y.flac"), rem := [] }
        ([] : List TrackRec) ("s") false = some out →
      ∀ p, ¬ (Effect.mkdirOut p ∈ out.trace)) := by
  intro h
  exact h { ok := false, diag := some ("错误：音轨列表为空，无法处理。"),
            trace := [Effect.mkdirOut ("s/Untitled Album")], pool := none }
    (by decide) ("s/Untitled Album") (by decide)

/-- C7 amended: with an empty track list (and the album file key present) the
call is rejected as a failure before the duration probe and before any
splitting; the output directory, however, has already been created. -/
theorem c7_empty_tracks_reject (cpu : Nat) (odir : Option String)
    (splitFn : TrackRec → Bool × Option String) (probe : Option ℚ) (album : AlbumRec)
    (sourceDir : String) (conc : Bool) (f : String) (hf : album.file = some f) :
    process_album cpu odir splitFn probe album ([] : List TrackRec) sourceDir conc =
      some { ok := false, diag := some ("错误：音轨列表为空，无法处理。"),
             trace := [Effect.mkdirOut (odir.getD (sourceDir ++ "/" ++
               sanitize ((album.title).getD ("Untitled Album"))))],
             pool := none } := by
  unfold process_album
  rw [hf]
  rfl

/-- C7 witness: concrete empty-track call. -/
theorem c7_empty_tracks_reject_witness :
    process_album 2 none (fun _ => (true, none)) none
      { title := some ("My/Album"), performer := none, file := some ("a.flac"), rem := [] }
      ([] : List TrackRec) ("src") true =
    some { ok := false, diag := some ("错误：音轨列表为空，无法处理。"),
           trace := [Effect.mkdirOut ("src/My_Album")], pool := none } :=
  c7_empty_tracks_reject 2 none (fun _ => (true, none)) none
    { title := some ("My/Album"), performer := none, file := some ("a.flac"), rem := [] }
    ("src") true ("a.flac") rfl

/-- C5: the orchestrator's two-way concurrency selection.  With more than one
album task every worker has track concurrency disabled and the album pool is
min(cpu, taskCount, 4), and a worker running with the flag off opens no track
pool; with exactly one task the flag is on, no album pool is opened, and an
album with more than one track opens a track pool of min(cpu, trackCount, 4). -/
theorem c5_concurrency_plan (cpu : Nat) (tasks : List String) :
    (tasks.length > 1 →
      (∀ p ∈ cliWorkerFlags tasks, p.2 = false) ∧
      cliAlbumPool cpu tasks = some (min cpu (min tasks.length 4)) ∧
      (∀ (odir : Option String) (splitFn : TrackRec → Bool × Option String)
         (probe : Option ℚ) (album : AlbumRec) (tracks : List TrackRec)
         (sourceDir : String) (out : ProcOutcome),
         process_album cpu odir splitFn probe album tracks sourceDir false = some out →
         out.pool = none)) ∧
    (tasks.length = 1 →
      (∀ p ∈ cliWorkerFlags tasks, p.2 = true) ∧
      cliAlbumPool cpu tasks = none ∧
      (∀ (odir : Option String) (splitFn : TrackRec → Bool × Option String)
         (probe : Option ℚ) (album : AlbumRec) (tracks : List TrackRec)
         (sourceDir : String) (out : ProcOutcome), tracks.length > 1 →
         process_album cpu odir splitFn probe album tracks sourceDir true = some out →
         out.pool = some (min cpu (min tracks.length 4)))) := by
  constructor
  · intro h1
    refine ⟨?_, ?_, ?_⟩
    · intro p hp
      unfold cliWorkerFlags at hp
      rw [if_pos h1] at hp
      obtain ⟨t, _, rfl⟩ := List.mem_map.mp hp
      rfl
    · unfold cliAlbumPool
      rw [if_pos h1]
    · intro odir splitFn probe album tracks sourceDir out hout
      unfold process_album at hout
      cases hfa : album.file with
      | none => rw [hfa] at hout; exact absurd hout (by simp)
      | some fa =>
        rw [hfa] at hout
        dsimp only at hout
        by_cases hemp : tracks.isEmpty = true
        · rw [if_pos hemp] at hout
          rw [← Option.some.inj hout]
        · rw [if_neg hemp] at hout
          split at hout
          · rw [← Option.some.inj hout]
            simp
          · rw [← Option.some.inj hout]
            simp
  · intro h1
    refine ⟨?_, ?_, ?_⟩
    · intro p hp
      unfold cliWorkerFlags at hp
      rw [if_neg (by omega : ¬ tasks.length > 1)] at hp
      obtain ⟨t, _, rfl⟩ := List.mem_map.mp hp
      rfl
    · unfold cliAlbumPool
      rw [if_neg (by omega : ¬ tasks.length > 1)]
    · intro odir splitFn probe album tracks sourceDir out hlen hout
      unfold process_album at hout
      cases hfa : album.file with
      | none => rw [hfa] at hout; exact absurd hout (by simp)
      | some fa =>
        rw [hfa] at hout
        dsimp only at hout
        rw [if_neg (by
          intro hemp2
          rw [List.isEmpty_iff.mp hemp2] at hlen
          exact absurd hlen (by simp))] at hout
        split at hout
        · rw [← Option.some.inj hout]
          simp [hlen]
        · rw [← Option.some.inj hout]
          simp [hlen]

/-- C5 witness: three tasks give an album pool of min(cpu, 3, 4). -/
theorem c5_concurrency_plan_witness :
    cliAlbumPool 8 (["a", "b", "c"]) = some (min 8 (min 3 4)) :=
  ((c5_concurrency_plan 8 (["a", "b", "c"])).1 (by decide)).2.1

/-- C8 counterexample: after a TRACK directive with a non-digit argument no
track is being built, so a later FILE line still modifies the album record,
refuting the parenthetical that any FILE line after the first TRACK directive
leaves the album record unchanged. -/
theorem c8_counterexample :
    isTrackCmd ("TRACK X AUDIO") = true ∧
    (parse (["TRACK X AUDIO", "FILE \"a.flac\""])).map (fun p => p.1.file) =
      some (some ("a.flac")) ∧
    parse (["TRACK X AUDIO", "FILE \"a.flac\""]) ≠ parse (["TRACK X AUDIO"]) := by
  refine ⟨by decide, by decide, by decide⟩

/-- C8 amended: a FILE directive only ever writes the album record's file
field, and only while no track is being built (in particular any FILE line
while a track is in progress is a complete no-op); a quoted nonempty argument
takes priority, otherwise the first whitespace token is taken, and an argument
with no tokens changes nothing. -/
theorem c8_file_directive (s : PState) (l a : String)
    (h : cmdOf l = some (("FILE"), a)) :
    step s l = (match s.cur with
      | some _ => s
      | none => { s with album := { s.album with file :=
          (match findQuoted a.data with
           | some q => some q
           | none =>
             match pySplitWs a with
             | [] => s.album.file
             | tok :: _ => some tok) } }) := by
  rw [step_eq_file h]
  cases s.cur <;> rfl

/-- C8 witness: a quoted FILE argument sets the album file field. -/
theorem c8_file_directive_witness :
    step initState ("FILE \"img.flac\" WAVE") =
      { album := { title := none, performer := none, file := some ("img.flac"), rem := [] },
        heap := [], refs := [], cur := none } :=
  (c8_file_directive initState ("FILE \"img.flac\" WAVE") ("\"img.flac\" WAVE")
    (by decide)).trans (by decide)

end TermuxCue
